import Mathlib

/-!
Verification of the text-pattern analysis engine of this repository
(files `Task2/text_analyzer.py`, `Task2/base_analyzer.py`, `Task2/Task2.py`).
Strings are modelled as `List Char`; every Python scan is embedded as a
computable Lean function.  Regular-expression scans are embedded as the
deterministic backtracking searches the Python `re` module performs on the
concrete patterns appearing in the source (greedy or lazy as written there),
advancing one character on failure and continuing after each match, exactly
as `re.findall` / `re.finditer` / `re.sub` do.
-/

/-- Shorthand: the character list of a string literal. -/
def lc (s : String) : List Char := s.toList

/-- The sentence-terminator class `[.!?]` of the source's patterns. -/
def isTerm (c : Char) : Bool := c == '.' || c == '!' || c == '?'

/-- ASCII whitespace, the characters matched by the pattern class
whitespace and stripped by Python's strip on the texts in scope. -/
def isSpaceCh (c : Char) : Bool :=
  c == ' ' || c == '\t' || c == '\n' || c == '\r' || c == '\x0b' || c == '\x0c'

/-- Python's `str.strip()`: drop leading and trailing whitespace. -/
def stripChars (l : List Char) : List Char :=
  ((l.dropWhile isSpaceCh).reverse.dropWhile isSpaceCh).reverse

/-- Embedding of `TextAnalyzer._split_into_sentences`
(`text_analyzer.py` lines 15-40).  The Python code splits on the regex
`[.!?]+(?:\s+|$)` keeping the separator, glues each separator back onto the
text before it, strips each piece and drops blank pieces.  Operationally
that is a single scan: `cur` is the text accumulated for the current
sentence, `pend` is a run of terminator characters not yet known to be a
boundary.  A terminator run followed by whitespace or by the end of the
text ends a sentence (the run is kept, the stripped sentence is emitted if
non-blank); a terminator run followed by anything else is ordinary text. -/
def splitAux : List Char → List Char → List Char → List (List Char)
  | [], cur, pend =>
    if pend = [] then
      if stripChars cur = [] then [] else [stripChars cur]
    else
      if stripChars (cur ++ pend) = [] then [] else [stripChars (cur ++ pend)]
  | c :: rest, cur, pend =>
    if isTerm c then
      splitAux rest cur (pend ++ [c])
    else if isSpaceCh c ∧ pend ≠ [] then
      if stripChars (cur ++ pend) = [] then
        splitAux rest [] []
      else
        stripChars (cur ++ pend) :: splitAux rest [] []
    else if pend ≠ [] then
      splitAux rest (cur ++ pend ++ [c]) []
    else
      splitAux rest (cur ++ [c]) []

/-- `TextAnalyzer._split_into_sentences(self)` on a document. -/
def splitIntoSentences (t : List Char) : List (List Char) := splitAux t [] []

/-- Split a text at every single terminator character (fields between two
adjacent terminators are empty and get discarded later). -/
def splitOnTerms : List Char → List (List Char)
  | [] => [[]]
  | c :: rest =>
    match splitOnTerms rest with
    | [] => [[]]
    | s :: ss => if isTerm c then [] :: s :: ss else (c :: s) :: ss

/-- Reference segmentation, following the spec's words (section 4.1): split
the text on every maximal run of one or more consecutive `.`, `!`, `?`
characters, wherever it occurs, trim whitespace from each resulting span and
discard spans that are empty after trimming.  (Splitting at every terminator
and discarding blank spans is the same thing: the spans between two adjacent
terminators are empty.) -/
def refSegment (t : List Char) : List (List Char) :=
  ((splitOnTerms t).map stripChars).filter (fun s => !s.isEmpty)

/-- Embedding of `BasicTextAnalyzer._count_sentences` (`Task2.py` lines
65-70): `re.split(r'[.!?]+', text)`, strip each piece, drop blanks, count.
The split of that regex is the split at maximal terminator runs. -/
def basicCountSentences (t : List Char) : Nat :=
  (((splitOnTerms t).map stripChars).filter (fun s => !s.isEmpty)).length

/-- The three sentence classes of `get_sentence_types`. -/
inductive SentenceType where
  | declarative
  | interrogative
  | exclamatory
deriving DecidableEq

/-- Python's `s.endswith(c)` for a single character. -/
def endsWithCh (c : Char) (s : List Char) : Bool :=
  match s.getLast? with
  | some d => d == c
  | none => false

/-- The per-sentence branch of `TextAnalyzer.get_sentence_types`
(`text_analyzer.py` lines 76-82): `endswith('?')` first, then
`endswith('!')`, else declarative. -/
def classifySentence (s : List Char) : SentenceType :=
  if endsWithCh '?' s then .interrogative
  else if endsWithCh '!' s then .exclamatory
  else .declarative

/-- Embedding of `TextAnalyzer.get_sentence_types` (`text_analyzer.py`
lines 63-84) as the triple (declarative, interrogative, exclamatory). -/
def getSentenceTypes : List (List Char) → Nat × Nat × Nat
  | [] => (0, 0, 0)
  | s :: rest =>
    let r := getSentenceTypes rest
    match classifySentence s with
    | .declarative => (r.1 + 1, r.2.1, r.2.2)
    | .interrogative => (r.1, r.2.1 + 1, r.2.2)
    | .exclamatory => (r.1, r.2.1, r.2.2 + 1)

/-- ASCII lower-case letter. -/
def isLower (c : Char) : Bool := decide ('a' ≤ c) && decide (c ≤ 'z')

/-- ASCII upper-case letter. -/
def isUpper (c : Char) : Bool := decide ('A' ≤ c) && decide (c ≤ 'Z')

/-- The class `[a-zA-Z]`. -/
def isLatin (c : Char) : Bool := isLower c || isUpper c

/-- The class `[0-9]`. -/
def isDigitCh (c : Char) : Bool := decide ('0' ≤ c) && decide (c ≤ '9')

/-- The class `[а-яА-Я]` of the source's word patterns (the Cyrillic ranges
U+0430-U+044F and U+0410-U+042F; like the Python class it leaves out ё/Ё). -/
def isCyr (c : Char) : Bool :=
  (decide (0x430 ≤ c.toNat) && decide (c.toNat ≤ 0x44F)) ||
  (decide (0x410 ≤ c.toNat) && decide (c.toNat ≤ 0x42F))

/-- The class `[a-zA-Zа-яА-Я]` used by `get_all_words` and
`get_repeated_words`. -/
def isAlphaRu (c : Char) : Bool := isLatin c || isCyr c

/-- Python's `\w` (a word character), restricted to the scripts this
repository handles: ASCII letters, digits, underscore, and the Cyrillic
block U+0400-U+04FF. -/
def isWordCh (c : Char) : Bool :=
  isLatin c || isDigitCh c || c == '_' ||
  (decide (0x400 ≤ c.toNat) && decide (c.toNat ≤ 0x4FF))

/-- Word-ness of an optional character; a position outside the text counts
as a non-word character for `\b`. -/
def isWordOpt : Option Char → Bool
  | some c => isWordCh c
  | none => false

/-- A `\b` word boundary between a previous character (`none` at the start
of the text) and the current one. -/
def isBoundary (prev : Option Char) (cur : Option Char) : Bool :=
  isWordOpt prev != isWordOpt cur

/-- Python's `str.lower()` on the alphabets in scope (ASCII and the basic
Cyrillic letters, Ё included). -/
def toLowerRu (c : Char) : Char :=
  if isUpper c then Char.ofNat (c.toNat + 32)
  else if decide (0x410 ≤ c.toNat) && decide (c.toNat ≤ 0x42F) then Char.ofNat (c.toNat + 0x20)
  else if c.toNat == 0x401 then Char.ofNat 0x451
  else c

/-- The negative lookahead `(?!v_\b)` of `get_repeated_words`: true when
the text at this position starts with `v`, `_` and then a word boundary. -/
def lookVU : List Char → Bool
  | 'v' :: '_' :: rest =>
    match rest with
    | [] => true
    | d :: _ => !isWordCh d
  | _ => false

/-- Scan of the word patterns `\b[a-zA-Zа-яА-Я]+\b` (`use_look = false`, as
in `TextAnalyzerMixin.get_all_words`, `base_analyzer.py` line 13) and
`\b(?!v_\b)[a-zA-Zа-яА-Я]+\b` (`use_look = true`, as in
`TextAnalyzer.get_repeated_words`, `text_analyzer.py` line 171).  `prevW`
records whether the preceding character is a word character, deciding `\b`
at the start; the run of letters is maximal (the `+` is greedy), and the
closing `\b` holds exactly when the character after the run is not a word
character — otherwise the engine finds no match here and moves one
character forward.  The fuel starts at the length of the text and bounds
the number of scan steps, each of which consumes at least one character. -/
def wordsAux (look : Bool) : Nat → Bool → List Char → List (List Char)
  | 0, _, _ => []
  | fuel + 1, prevW, l =>
    match l with
    | [] => []
    | c :: rest =>
      if !prevW && isAlphaRu c && !(look && lookVU (c :: rest)) then
        if isWordOpt (rest.dropWhile isAlphaRu).head? then
          wordsAux look fuel (isWordCh c) rest
        else
          (c :: rest.takeWhile isAlphaRu) ::
            wordsAux look fuel true (rest.dropWhile isAlphaRu)
      else
        wordsAux look fuel (isWordCh c) rest

/-- Embedding of `TextAnalyzerMixin.get_all_words`:
`re.findall(r'\b[a-zA-Zа-яА-Я]+\b', self.text)`. -/
def getAllWords (t : List Char) : List (List Char) :=
  wordsAux false t.length false t

/-- First-occurrence deduplication, as iteration over a `Counter` (an
insertion-ordered dict) yields each word at its first occurrence. -/
def dedupKeepFirst : List (List Char) → List (List Char) → List (List Char)
  | _, [] => []
  | seen, w :: rest =>
    if w ∈ seen then dedupKeepFirst seen rest
    else w :: dedupKeepFirst (w :: seen) rest

/-- Embedding of `TextAnalyzer.get_repeated_words` (`text_analyzer.py`
lines 164-173): words of the lower-cased text, then the words occurring
more than once, in first-occurrence order. -/
def getRepeatedWords (t : List Char) : List (List Char) :=
  let ws := wordsAux true (t.map toLowerRu).length false (t.map toLowerRu)
  (dedupKeepFirst [] ws).filter (fun w => 2 ≤ ws.count w)

/-- Scan of `\b[iI]\w+\b` (`TextAnalyzer.get_shortest_i_word`,
`text_analyzer.py` line 161).  A match needs a word boundary before an
`i`/`I` and at least one further word character; the `\w+` run is maximal,
which makes the closing `\b` automatic. -/
def iWordsAux : Nat → Bool → List Char → List (List Char)
  | 0, _, _ => []
  | fuel + 1, prevW, l =>
    match l with
    | [] => []
    | c :: rest =>
      if !prevW && (c == 'i' || c == 'I') && !(rest.takeWhile isWordCh).isEmpty then
        (c :: rest.takeWhile isWordCh) ::
          iWordsAux fuel true (rest.dropWhile isWordCh)
      else
        iWordsAux fuel (isWordCh c) rest

/-- The matches of `\b[iI]\w+\b` in the document, in scan order. -/
def iWords (t : List Char) : List (List Char) := iWordsAux t.length false t

/-- The accumulator step of Python's `min(..., key=len)`: the next element
replaces the current best only when strictly shorter, so the first element
of minimal length wins. -/
def pickShorter (b w : List Char) : List Char :=
  if w.length < b.length then w else b

/-- Python's `min(ws, key=len)` for a non-empty list, `[]` otherwise. -/
def minByLen : List (List Char) → List Char
  | [] => []
  | h :: rest => rest.foldl pickShorter h

/-- Embedding of `TextAnalyzer.get_shortest_i_word` (`text_analyzer.py`
lines 154-162): `min` by length over the `\b[iI]\w+\b` matches, the empty
string when there are none. -/
def getShortestIWord (t : List Char) : List Char := minByLen (iWords t)

/-- The class `[a-zA-Z0-9]` of the variable pattern. -/
def isAlnumCh (c : Char) : Bool := isLatin c || isDigitCh c

/-- The seven characters of the literal pattern of
`TextAnalyzer.replace_math_vars` with variable `x`. -/
def varPat (x : Char) : List Char := ['$', 'v', '_', '(', x, ')', '$']

/-- Whether the text starts with an occurrence of the variable pattern
`\$v_\(([a-zA-Z0-9])\)\$`; on success, the variable and the text after the
occurrence. -/
def varHead? : List Char → Option (Char × List Char)
  | '$' :: 'v' :: '_' :: '(' :: x :: ')' :: '$' :: rest =>
    if isAlnumCh x then some (x, rest) else none
  | _ => none

theorem varHead?_length : ∀ l x r, varHead? l = some (x, r) →
    l.length = r.length + 7 := by
  intro l x r h
  unfold varHead? at h
  split at h
  · split at h
    · cases h; simp
    · cases h
  · cases h

/-- The scan of `re.sub(r'\$v_\(([a-zA-Z0-9])\)\$', r'v[\1]', text)`
(`TextAnalyzer.replace_math_vars`, `text_analyzer.py` line 142): at each
position, replace an occurrence of the pattern starting there and continue
after it, otherwise copy one character and move on. -/
def replaceVarsAux : Nat → List Char → List Char
  | 0, l => l
  | fuel + 1, l =>
    match l with
    | [] => []
    | c :: rest =>
      match varHead? (c :: rest) with
      | some (x, rest2) => 'v' :: '[' :: x :: ']' :: replaceVarsAux fuel rest2
      | none => c :: replaceVarsAux fuel rest

/-- Embedding of `TextAnalyzer.replace_math_vars`. -/
def replaceMathVars (l : List Char) : List Char := replaceVarsAux l.length l

/-- Whether the text contains an occurrence of the variable pattern. -/
def containsVarPat : List Char → Bool
  | [] => false
  | c :: rest =>
    match varHead? (c :: rest) with
    | some _ => true
    | none => containsVarPat rest

/-- The bracket class `[\(\)\[\]]` of the smiley patterns. -/
def isBracketCh (c : Char) : Bool := c == '(' || c == ')' || c == '[' || c == ']'

/-- Embedding of `AdvancedTextAnalyzer._count_smileys` (`Task2.py` lines
177-189): find every match of `(?::|;)-*[\(\)\[\]]+` (the bracket run is
greedy, hence maximal), strip the leading `[:;]-*`, and count the
candidates whose bracket run consists of one repeated character. -/
def countSmileysAdvAux : Nat → List Char → Nat
  | 0, _ => 0
  | fuel + 1, l =>
    match l with
    | [] => 0
    | c :: rest =>
      if c == ':' || c == ';' then
        match (rest.dropWhile (· == '-')).takeWhile isBracketCh with
        | [] => countSmileysAdvAux fuel rest
        | b :: bs =>
          (if bs.all (· == b) then 1 else 0) +
            countSmileysAdvAux fuel ((rest.dropWhile (· == '-')).dropWhile isBracketCh)
      else
        countSmileysAdvAux fuel rest

/-- `AdvancedTextAnalyzer._count_smileys` on a document (its
`smiley_count` result). -/
def countSmileysAdv (t : List Char) : Nat := countSmileysAdvAux t.length t

/-- Embedding of `TextAnalyzer.count_smileys` (`text_analyzer.py` lines
113-121): count the matches of `[;:]-*([\(\)\[\]])\1+` — a bracket
character followed by at least one repetition of the same character. -/
def countSmileysTAAux : Nat → List Char → Nat
  | 0, _ => 0
  | fuel + 1, l =>
    match l with
    | [] => 0
    | c :: rest =>
      if c == ':' || c == ';' then
        match rest.dropWhile (· == '-') with
        | [] => countSmileysTAAux fuel rest
        | b :: rest2 =>
          if isBracketCh b && !(rest2.takeWhile (· == b)).isEmpty then
            1 + countSmileysTAAux fuel (rest2.dropWhile (· == b))
          else
            countSmileysTAAux fuel rest
      else
        countSmileysTAAux fuel rest

/-- `TextAnalyzer.count_smileys` on a document. -/
def countSmileysTA (t : List Char) : Nat := countSmileysTAAux t.length t

/-- Index of the last occurrence of `T` in a list, if any. -/
def lastIdxOf (T : Char) : List Char → Option Nat
  | [] => none
  | c :: rest =>
    match lastIdxOf T rest with
    | some p => some (p + 1)
    | none => if c == T then some 0 else none

/-- Count of the matches of a pattern `[^X]*T` (a greedy run of characters
satisfying `nonX` followed by the literal terminator `T`, with `T` itself
satisfying `nonX`): at each position the greedy star backtracks to the last
occurrence of `T` inside the maximal `nonX` run, so the match ends there;
without such an occurrence the engine moves one character forward.  This is
the shape of all three `findall` calls of
`BasicTextAnalyzer._classify_sentences` (`Task2.py` lines 72-80). -/
def findallCountAux (nonX : Char → Bool) (T : Char) : Nat → List Char → Nat
  | 0, _ => 0
  | fuel + 1, l =>
    match l with
    | [] => 0
    | _ :: rest =>
      match lastIdxOf T (l.takeWhile nonX) with
      | some p => 1 + findallCountAux nonX T fuel (l.drop (p + 1))
      | none => findallCountAux nonX T fuel rest

/-- `len(re.findall(r'[^!?]*\.', text))` — the `declarative` count of
`BasicTextAnalyzer._classify_sentences`. -/
def declarativeCount (t : List Char) : Nat :=
  findallCountAux (fun c => !(c == '!' || c == '?')) '.' t.length t

/-- `len(re.findall(r'[^.]*\?', text))` — the `interrogative` count. -/
def interrogativeCount (t : List Char) : Nat :=
  findallCountAux (fun c => !(c == '.')) '?' t.length t

/-- `len(re.findall(r'[^.]*!', text))` — the `exclamatory` count. -/
def exclamatoryCount (t : List Char) : Nat :=
  findallCountAux (fun c => !(c == '.')) '!' t.length t

/-- The local-part class `[a-zA-Z0-9._%+-]` of the email patterns. -/
def isLocalCh (c : Char) : Bool :=
  isLatin c || isDigitCh c || c == '.' || c == '_' || c == '%' || c == '+' || c == '-'

/-- The domain class `[a-zA-Z0-9.-]` of the email patterns. -/
def isDomainCh (c : Char) : Bool :=
  isLatin c || isDigitCh c || c == '.' || c == '-'

/-- The top-level class `[A-Z|a-z]` of `AdvancedTextAnalyzer._email_pattern`
(the `|` inside the class is a literal). -/
def isTldAdvCh (c : Char) : Bool := isLatin c || c == '|'

/-- The positions (at offset at least 1) of `.` in a list, rightmost
first — the order in which the greedy `[a-zA-Z0-9.-]+\.` backtracks over
candidate dots. -/
def dotsDesc (run : List Char) : List Nat :=
  ((List.range run.length).filter (fun p => 1 ≤ p && run.getD p ' ' == '.')).reverse

/-- Greedy `{2,}` with a closing `\b`: find the largest `m ≤ tr.length`
with `2 ≤ m` such that a word boundary holds after the first `m` characters
of the top-level-domain run `tr` (the character after position `m` is
`tr.getD m` or, past the run, the head of `after`). -/
def tldLenBack (tr after : List Char) : Nat → Option Nat
  | 0 => none
  | m + 1 =>
    if 2 ≤ m + 1 &&
        isBoundary (tr.getD m ' ') ((tr.drop (m + 1) ++ after).head?) then
      some (m + 1)
    else
      tldLenBack tr after m

/-- The domain part `[a-zA-Z0-9.-]+\.TLD` of an email match, starting right
after the `@`.  `tld` tells which top-level class to use and whether a
closing `\b` applies (`true` for `AdvancedTextAnalyzer._email_pattern`,
`false` for the email core of `TextAnalyzer.get_emails_and_names`, whose
`[a-zA-Z]{2,}` is last in the group and simply takes the maximal run).
Returns the matched domain text and the rest of the input. -/
def matchDomain (bTail : Bool) (tldCh : Char → Bool) (drest : List Char) :
    List Nat → Option (List Char × List Char)
  | [] => none
  | p :: ps =>
    let run := drest.takeWhile isDomainCh
    let afterRun := drest.dropWhile isDomainCh
    let tldSrc := run.drop (p + 1) ++ afterRun
    let tr := tldSrc.takeWhile tldCh
    let afterTr := tldSrc.dropWhile tldCh
    match (if bTail then tldLenBack tr afterTr tr.length
           else if 2 ≤ tr.length then some tr.length else none) with
    | some m => some (run.take p ++ '.' :: tr.take m, tldSrc.drop m)
    | none => matchDomain bTail tldCh drest ps

/-- One attempted match of `AdvancedTextAnalyzer._email_pattern`
`\b([A-Za-z0-9._%+-]+)@([A-Za-z0-9.-]+\.[A-Z|a-z]{2,})\b` at the current
position (`prev` is the preceding character, for the opening `\b`):
the greedy local part is the maximal `[A-Za-z0-9._%+-]` run (no
backtracking can help, since `@` is outside the class), then `@`, then the
domain with its dot backtracking.  Returns (local part, domain, rest). -/
def matchEmailAdvAt (prev : Option Char) (l : List Char) :
    Option (List Char × List Char × List Char) :=
  match l with
  | [] => none
  | c :: _ =>
    if isBoundary prev (some c) && isLocalCh c then
      match l.dropWhile isLocalCh with
      | '@' :: drest =>
        match matchDomain true isTldAdvCh drest
            (dotsDesc (drest.takeWhile isDomainCh)) with
        | some (dom, rest2) => some (l.takeWhile isLocalCh, dom, rest2)
        | none => none
      | _ => none
    else none

/-- The `re.findall` scan of `AdvancedTextAnalyzer._email_pattern`: emit
the (local part, domain) group pair of each match, continue after it, move
one character forward where there is no match. -/
def extractEmailsAux : Nat → Option Char → List Char → List (List Char × List Char)
  | 0, _, _ => []
  | fuel + 1, prev, l =>
    match l with
    | [] => []
    | c :: rest =>
      match matchEmailAdvAt prev (c :: rest) with
      | some (loc, dom, rest2) =>
        (loc, dom) :: extractEmailsAux fuel dom.getLast? rest2
      | none => extractEmailsAux fuel (some c) rest

/-- Embedding of `AdvancedTextAnalyzer._extract_emails` (`Task2.py` lines
143-146): the (username, domain) pairs of all matches, in order of
appearance, without deduplication. -/
def extractEmails (t : List Char) : List (List Char × List Char) :=
  extractEmailsAux t.length none t

/-- The name class `[^<>\n:]` of `TextAnalyzer.get_emails_and_names`. -/
def isNameCh (c : Char) : Bool := !(c == '<' || c == '>' || c == '\n' || c == ':')

/-- The bare email core `[a-zA-Z0-9._%+-]+@[a-zA-Z0-9.-]+\.[a-zA-Z]{2,}` of
`TextAnalyzer.get_emails_and_names` (no word boundaries): greedy local
part, `@`, domain with dot backtracking, maximal top-level run of at least
two letters.  Returns the matched email text and the rest. -/
def matchEmailCoreAt (l : List Char) : Option (List Char × List Char) :=
  match l with
  | [] => none
  | c :: _ =>
    if isLocalCh c then
      match l.dropWhile isLocalCh with
      | '@' :: drest =>
        match matchDomain false isLatin drest
            (dotsDesc (drest.takeWhile isDomainCh)) with
        | some (dom, rest2) => some (l.takeWhile isLocalCh ++ '@' :: dom, rest2)
        | none => none
      | _ => none
    else none

/-- The optional trailing `>?`: consume a `>` when present. -/
def dropGt : List Char → List Char
  | '>' :: rest => rest
  | l => l

/-- The present-branch of the optional group `(?:([^<>\n:]*?)\s*<)?`: the
lazy `*?` tries name prefixes shortest-first; for each prefix, greedy `\s*`
then a literal `<` then the email core.  `acc` is the name read so far;
when the text after the skipped spaces does not start with `<` (or the
email fails there), the name grows by one `[^<>\n:]` character.  Returns
(name group, email group, rest after the optional `>`). -/
def tryNameAux : List Char → List Char → Option (List Char × List Char × List Char)
  | acc, rem =>
    match
      (match rem.dropWhile isSpaceCh with
       | '<' :: rem3 =>
         match matchEmailCoreAt rem3 with
         | some (em, rest) => some (acc, em, dropGt rest)
         | none => none
       | _ => none) with
    | some r => some r
    | none =>
      match rem with
      | c :: rest2 => if isNameCh c then tryNameAux (acc ++ [c]) rest2 else none
      | [] => none

/-- One attempted match of the full pattern
`(?:([^<>\n:]*?)\s*<)?([a-zA-Z0-9._%+-]+@[a-zA-Z0-9.-]+\.[a-zA-Z]{2,})>?`
at the current position: the greedy `?` tries the named branch first (over
all its lazy prefixes), then the bare email. -/
def matchEmailNameAt (l : List Char) : Option (List Char × List Char × List Char) :=
  match tryNameAux [] l with
  | some r => some r
  | none =>
    match matchEmailCoreAt l with
    | some (em, rest) => some ([], em, dropGt rest)
    | none => none

/-- The `re.finditer` scan of `TextAnalyzer.get_emails_and_names`
(`text_analyzer.py` lines 123-133), emitting
`(match.group(2), match.group(1).strip() if match.group(1) else '')`. -/
def emailsNamesAux : Nat → List Char → List (List Char × List Char)
  | 0, _ => []
  | fuel + 1, l =>
    match l with
    | [] => []
    | _ :: rest =>
      match matchEmailNameAt l with
      | some (nm, em, rest2) => (em, stripChars nm) :: emailsNamesAux fuel rest2
      | none => emailsNamesAux fuel rest

/-- Embedding of `TextAnalyzer.get_emails_and_names`. -/
def getEmailsAndNames (t : List Char) : List (List Char × List Char) :=
  emailsNamesAux t.length t

/-- A Python value passed to the analyzer constructor or to the `text`
setter: a string, `None`, or a value of any other type. -/
inductive PyValue where
  | pstr (s : List Char)
  | pnone
  | pother
deriving DecidableEq

/-- The validation `if not text or not isinstance(text, str)` of
`BaseTextAnalyzer.__init__` and of the `text` setter (`base_analyzer.py`
lines 37 and 58): an empty string is falsy, `None` is falsy, and any
non-string fails `isinstance` — each raises `ValueError`. -/
def textCheckOk : PyValue → Bool
  | .pstr s => !s.isEmpty
  | .pnone => false
  | .pother => false

/-- The state of a `BaseTextAnalyzer`: the current text and the cached
sentence list (`self._cached_sentences`, `None` until first use). -/
structure Analyzer where
  text : List Char
  cached : Option (List (List Char))
deriving DecidableEq

/-- Embedding of `BaseTextAnalyzer.__init__` (`base_analyzer.py` lines
27-40): validate, then store the text with an empty sentence cache. -/
def mkAnalyzer (v : PyValue) : Except String Analyzer :=
  match v with
  | .pstr s => if s.isEmpty then .error "ValueError" else .ok ⟨s, none⟩
  | _ => .error "ValueError"

/-- Embedding of the `text` setter (`base_analyzer.py` lines 47-61): same
validation, then replace the text and reset the cache. -/
def setText (_a : Analyzer) (v : PyValue) : Except String Analyzer :=
  match v with
  | .pstr s => if s.isEmpty then .error "ValueError" else .ok ⟨s, none⟩
  | _ => .error "ValueError"

/-- Embedding of the cached `sentences` property (`base_analyzer.py` lines
63-75): compute and store the sentence list on first use, then reuse it. -/
def sentencesOf (a : Analyzer) : List (List Char) × Analyzer :=
  match a.cached with
  | some l => (l, a)
  | none => (splitIntoSentences a.text, ⟨a.text, some (splitIntoSentences a.text)⟩)

/-- Mean of a list of natural numbers as a rational (0 for the empty
list), modelling the Python float division of the average metrics. -/
def qAvg (ls : List Nat) : ℚ :=
  if ls.isEmpty then 0 else (ls.sum : ℚ) / (ls.length : ℚ)

/-- `TextAnalyzer.get_odd_length_words` (`text_analyzer.py` lines
144-152). -/
def getOddLengthWords (t : List Char) : List (List Char) :=
  (getAllWords t).filter (fun w => w.length % 2 != 0)

/-- The result dictionary of `TextAnalyzer.analyze` (`text_analyzer.py`
lines 42-61), one field per key. -/
structure AnalysisReport where
  numSentences : Nat
  sentenceTypes : Nat × Nat × Nat
  avgSentenceLength : ℚ
  avgWordLength : ℚ
  smileyCount : Nat
  emails : List (List Char × List Char)
  replacedText : List Char
  oddLengthWords : List (List Char)
  shortestIWord : List Char
  repeatedWords : List (List Char)
  wordCount : Nat
deriving DecidableEq

/-- The metric values of `TextAnalyzer.analyze` computed from the text and
the sentence list. -/
def mkReport (t : List Char) (ss : List (List Char)) : AnalysisReport where
  numSentences := ss.length
  sentenceTypes := getSentenceTypes ss
  avgSentenceLength := qAvg (ss.map List.length)
  avgWordLength := qAvg ((getAllWords t).map List.length)
  smileyCount := countSmileysTA t
  emails := getEmailsAndNames t
  replacedText := replaceMathVars t
  oddLengthWords := getOddLengthWords t
  shortestIWord := getShortestIWord t
  repeatedWords := getRepeatedWords t
  wordCount := (getAllWords t).length

/-- Embedding of `TextAnalyzer.analyze`: read the (cached) sentences, then
build the report from the current text; the only state change is the
sentence cache being filled. -/
def analyzeTA (a : Analyzer) : AnalysisReport × Analyzer :=
  (mkReport (sentencesOf a).2.text (sentencesOf a).1, (sentencesOf a).2)

theorem dropWhile_head_false (p : Char → Bool) :
    ∀ (l : List Char) c rest, l.dropWhile p = c :: rest → p c = false := by
  intro l
  induction l with
  | nil => intro c rest h; cases h
  | cons a as ih =>
    intro c rest h
    rw [List.dropWhile_cons] at h
    by_cases hp : p a = true
    · rw [if_pos hp] at h; exact ih c rest h
    · rw [if_neg hp] at h
      cases h
      simpa using hp

theorem stripChars_has_ink : ∀ l, stripChars l ≠ [] →
    (stripChars l).any (fun c => !isSpaceCh c) = true := by
  intro l h
  unfold stripChars at h ⊢
  cases hc : ((l.dropWhile isSpaceCh).reverse.dropWhile isSpaceCh) with
  | nil => rw [hc] at h; simp at h
  | cons c rest =>
    have hcf : isSpaceCh c = false := dropWhile_head_false _ _ _ _ hc
    rw [List.any_eq_true]
    exact ⟨c, by simp, by simp [hcf]⟩

/-- Goodness of one sentence: non-empty and not all whitespace. -/
def goodSentence (s : List Char) : Bool :=
  !s.isEmpty && s.any (fun c => !isSpaceCh c)

theorem goodSentence_strip : ∀ x, stripChars x ≠ [] →
    goodSentence (stripChars x) = true := by
  intro x h
  simp [goodSentence, h, stripChars_has_ink _ h]

theorem splitAux_good : ∀ t cur pend,
    (splitAux t cur pend).all goodSentence = true := by
  intro t
  induction t with
  | nil =>
    intro cur pend
    by_cases hp : pend = []
    · by_cases hs : stripChars cur = [] <;>
        simp [splitAux, hp, hs, goodSentence_strip]
    · by_cases hs : stripChars (cur ++ pend) = [] <;>
        simp [splitAux, hp, hs, goodSentence_strip]
  | cons c rest ih =>
    intro cur pend
    by_cases ht : isTerm c
    · simp [splitAux, ht, ih]
    · by_cases hsp : isSpaceCh c ∧ pend ≠ []
      · by_cases hs : stripChars (cur ++ pend) = [] <;>
          simp [splitAux, ht, hsp, hs, ih, goodSentence_strip]
      · by_cases hp : pend = []
        · simp [splitAux, ht, hsp, hp, ih]
        · have hsc : isSpaceCh c = false := by
            cases hcc : isSpaceCh c
            · rfl
            · exact absurd ⟨hcc, hp⟩ hsp
          simp [splitAux, ht, hsp, hp, hsc, ih]

theorem splitAux_no_term : ∀ t cur, (∀ c ∈ t, isTerm c = false) →
    splitAux t cur [] =
      if stripChars (cur ++ t) = [] then [] else [stripChars (cur ++ t)] := by
  intro t
  induction t with
  | nil => intro cur _; simp [splitAux]
  | cons c rest ih =>
    intro cur h
    have hc : isTerm c = false := h c (List.mem_cons_self c rest)
    have hrest : ∀ d ∈ rest, isTerm d = false :=
      fun d hd => h d (List.mem_cons_of_mem c hd)
    have step := ih (cur ++ [c]) hrest
    rw [List.append_assoc] at step
    simpa [splitAux, hc] using step

theorem replaceVarsAux_nil : ∀ f, replaceVarsAux f [] = [] := by
  intro f; cases f <;> rfl

theorem replaceVarsAux_fuel : ∀ f1 f2 l, l.length ≤ f1 → l.length ≤ f2 →
    replaceVarsAux f1 l = replaceVarsAux f2 l := by
  intro f1
  induction f1 with
  | zero =>
    intro f2 l h1 _
    have : l = [] := by cases l <;> simp_all
    subst this
    rw [replaceVarsAux_nil, replaceVarsAux_nil]
  | succ f ih =>
    intro f2 l h1 h2
    cases l with
    | nil => rw [replaceVarsAux_nil, replaceVarsAux_nil]
    | cons c rest =>
      cases f2 with
      | zero => simp at h2
      | succ f2' =>
        simp only [replaceVarsAux]
        cases hv : varHead? (c :: rest) with
        | some p =>
          obtain ⟨x, r2⟩ := p
          have hlen := varHead?_length _ _ _ hv
          simp only [List.length_cons] at h1 h2 hlen
          dsimp only
          rw [ih f2' r2 (by omega) (by omega)]
        | none =>
          simp only [List.length_cons] at h1 h2
          dsimp only
          rw [ih f2' rest (by omega) (by omega)]

theorem replaceVarsAux_id : ∀ f l, containsVarPat l = false →
    replaceVarsAux f l = l := by
  intro f
  induction f with
  | zero => intro l _; rfl
  | succ f ih =>
    intro l h
    cases l with
    | nil => rfl
    | cons c rest =>
      simp only [containsVarPat] at h
      simp only [replaceVarsAux]
      cases hv : varHead? (c :: rest) with
      | some p => rw [hv] at h; simp at h
      | none =>
        rw [hv] at h
        dsimp only at h ⊢
        rw [ih rest h]

theorem replaceVarsAux_step : ∀ f x rest, isAlnumCh x = true →
    replaceVarsAux (f + 1) (varPat x ++ rest) =
      'v' :: '[' :: x :: ']' :: replaceVarsAux f rest := by
  intro f x rest h
  show replaceVarsAux (f + 1)
      ('$' :: 'v' :: '_' :: '(' :: x :: ')' :: '$' :: rest) = _
  simp only [replaceVarsAux, varHead?, h, if_true]

theorem replaceVars_head : ∀ x rest, isAlnumCh x = true →
    replaceMathVars (varPat x ++ rest) =
      'v' :: '[' :: x :: ']' :: replaceMathVars rest := by
  intro x rest h
  have hlen : (varPat x ++ rest).length = rest.length + 6 + 1 := by
    simp [varPat]
  unfold replaceMathVars
  rw [hlen, replaceVarsAux_step (rest.length + 6) x rest h,
    replaceVarsAux_fuel (rest.length + 6) rest.length rest (by omega) (by omega)]

theorem iWordsAux_shape : ∀ fuel prevW l w, w ∈ iWordsAux fuel prevW l →
    2 ≤ w.length ∧ (w.head? = some 'i' ∨ w.head? = some 'I') := by
  intro fuel
  induction fuel with
  | zero => intro prevW l w hw; simp [iWordsAux] at hw
  | succ f ih =>
    intro prevW l w hw
    cases l with
    | nil => simp [iWordsAux] at hw
    | cons c rest =>
      simp only [iWordsAux] at hw
      by_cases hcond :
          (!prevW && (c == 'i' || c == 'I') && !(rest.takeWhile isWordCh).isEmpty) = true
      · rw [if_pos hcond] at hw
        rcases List.mem_cons.mp hw with hEq | hMem
        · subst hEq
          constructor
          · have hrun : (rest.takeWhile isWordCh) ≠ [] := by
              intro hnil
              simp [hnil] at hcond
            have : 1 ≤ (rest.takeWhile isWordCh).length :=
              List.length_pos.mpr hrun
            simp only [List.length_cons]
            omega
          · have hi : (c == 'i' || c == 'I') = true := by
              simp only [Bool.and_eq_true] at hcond
              exact hcond.1.2
            rcases Bool.or_eq_true_iff.mp hi with h1 | h1
            · left; simp [List.head?, beq_iff_eq.mp h1]
            · right; simp [List.head?, beq_iff_eq.mp h1]
        · exact ih _ _ _ hMem
      · rw [if_neg hcond] at hw
        exact ih _ _ _ hw

theorem foldl_pickShorter_le : ∀ (l : List (List Char)) b w,
    (w = b ∨ w ∈ l) → (l.foldl pickShorter b).length ≤ w.length := by
  intro l
  induction l with
  | nil =>
    intro b w hw
    rcases hw with h | h
    · subst h; simp
    · simp at h
  | cons v vs ih =>
    intro b w hw
    simp only [List.foldl_cons]
    have hpick_b : (pickShorter b v).length ≤ b.length := by
      unfold pickShorter; split <;> omega
    have hpick_v : (pickShorter b v).length ≤ v.length := by
      unfold pickShorter; split <;> omega
    rcases hw with h | h
    · rw [h]
      exact le_trans (ih (pickShorter b v) _ (Or.inl rfl)) hpick_b
    · rcases List.mem_cons.mp h with h1 | h1
      · rw [h1]
        exact le_trans (ih (pickShorter b v) _ (Or.inl rfl)) hpick_v
      · exact ih (pickShorter b v) w (Or.inr h1)

theorem foldl_pickShorter_first : ∀ (l : List (List Char)) b,
    ∃ pre post, b :: l = pre ++ (l.foldl pickShorter b) :: post ∧
      ∀ w ∈ pre, (l.foldl pickShorter b).length < w.length := by
  intro l
  induction l with
  | nil => intro b; exact ⟨[], [], rfl, by simp⟩
  | cons v vs ih =>
    intro b
    simp only [List.foldl_cons]
    by_cases hv : v.length < b.length
    · have hpick : pickShorter b v = v := by unfold pickShorter; simp [hv]
      rw [hpick]
      obtain ⟨pre, post, heq, hlt⟩ := ih v
      refine ⟨b :: pre, post, by rw [List.cons_append, ← heq], ?_⟩
      intro w hw
      rcases List.mem_cons.mp hw with h1 | h1
      · rw [h1]
        have hle := foldl_pickShorter_le vs v v (Or.inl rfl)
        omega
      · exact hlt w h1
    · have hpick : pickShorter b v = b := by unfold pickShorter; simp [hv]
      rw [hpick]
      obtain ⟨pre, post, heq, hlt⟩ := ih b
      cases pre with
      | nil =>
        simp only [List.nil_append] at heq
        injection heq with h1 h2
        refine ⟨[], v :: vs, ?_, by simp⟩
        simp only [List.nil_append]
        rw [← h1]
      | cons p ps =>
        rw [List.cons_append] at heq
        injection heq with h1 h2
        have hrb : (vs.foldl pickShorter b).length < b.length := by
          have := hlt p (List.mem_cons_self p ps)
          rw [← h1] at this
          exact this
        refine ⟨b :: v :: ps, post, ?_, ?_⟩
        · rw [List.cons_append, List.cons_append, ← h2]
        · intro w hw
          rcases List.mem_cons.mp hw with hw1 | hw1
          · rw [hw1]; exact hrb
          · rcases List.mem_cons.mp hw1 with hw2 | hw2
            · rw [hw2]; omega
            · exact hlt w (List.mem_cons_of_mem p hw2)

theorem sentenceTypes_sum : ∀ ss : List (List Char),
    (getSentenceTypes ss).1 + (getSentenceTypes ss).2.1 + (getSentenceTypes ss).2.2 =
      ss.length := by
  intro ss
  induction ss with
  | nil => rfl
  | cons s rest ih =>
    cases h : classifySentence s <;>
      simp only [getSentenceTypes, h, List.length_cons] <;> omega

/-- Whether the constructor accepts the value (no `ValueError`). -/
def acceptsDoc (v : PyValue) : Bool :=
  match mkAnalyzer v with
  | .ok _ => true
  | .error _ => false

/-- Whether the `text` setter accepts the value (no `ValueError`). -/
def acceptsSet (a : Analyzer) (v : PyValue) : Bool :=
  match setText a v with
  | .ok _ => true
  | .error _ => false

/-- The method view of `replace_math_vars`: it reads `self.text` and
returns a new string, leaving the analyzer state untouched. -/
def replaceMathVarsM (a : Analyzer) : List Char × Analyzer :=
  (replaceMathVars a.text, a)

/-- Claim C1: the email extractor yields (localPart, domain) pairs in order
of appearance without deduplication; `"contact me at a.b@example.com
please"` yields exactly one match, with local part `"a.b"` and domain
`"example.com"`.  (Checked on the extractor the spec describes,
`AdvancedTextAnalyzer._extract_emails`; the second conjunct exhibits the
in-order, non-deduplicating behaviour on a repeated address.) -/
theorem claim_C1 :
    extractEmails (lc "contact me at a.b@example.com please") =
      [(lc "a.b", lc "example.com")] ∧
    extractEmails (lc "x a@b.cc and a@b.cc y") =
      [(lc "a", lc "b.cc"), (lc "a", lc "b.cc")] :=
  ⟨by decide, by decide⟩

/-- Claim C2: the smiley counter counts `[:;]`, then `-`*, then one or more
identical brackets from `()[]`, rejecting candidates whose bracket run
mixes bracket characters: `":-)))"` counts 1, `":-)]"` counts 0, a single
bracket as in `":)"` counts, and the mixed run `":-((]"` is rejected.
(Checked on the counter the spec describes,
`AdvancedTextAnalyzer._count_smileys`.) -/
theorem claim_C2 :
    countSmileysAdv (lc ":-)))") = 1 ∧
    countSmileysAdv (lc ":-)]") = 0 ∧
    countSmileysAdv (lc ":)") = 1 ∧
    countSmileysAdv (lc ":-((]") = 0 :=
  ⟨by decide, by decide, by decide, by decide⟩

/-- Claim C3, counterexample: a document consisting of a single space (all
whitespace, non-empty) is accepted by the constructor, not rejected as the
claim states. -/
theorem claim_C3_counterexample : acceptsDoc (.pstr (lc " ")) = true := by decide

/-- Claim C3, amended: constructing the analyzer (or replacing its text via
the setter) fails with `ValueError` exactly when the document is the empty
string, `None`, or not a string; every non-empty string — including
whitespace-only ones — is accepted. -/
theorem claim_C3 :
    (∀ s : List Char, acceptsDoc (.pstr s) = !s.isEmpty) ∧
    acceptsDoc .pnone = false ∧
    acceptsDoc .pother = false ∧
    (∀ a : Analyzer, ∀ s : List Char, acceptsSet a (.pstr s) = !s.isEmpty) ∧
    (∀ a : Analyzer, acceptsSet a .pnone = false) ∧
    (∀ a : Analyzer, acceptsSet a .pother = false) := by
  refine ⟨?_, rfl, rfl, ?_, fun a => rfl, fun a => rfl⟩
  · intro s; cases s <;> rfl
  · intro a s; cases s <;> rfl

/-- Claim C4: every sentence gets exactly one type, decided by its terminal
character checked in order `?`, then `!`, else declarative; hence for every
document the three counts sum to the number of sentences, and
`"Hi! Are you ok? Yes."` gives three sentences classified exclamatory,
interrogative, declarative. -/
theorem claim_C4 :
    (∀ t : List Char,
      (getSentenceTypes (splitIntoSentences t)).1 +
        (getSentenceTypes (splitIntoSentences t)).2.1 +
        (getSentenceTypes (splitIntoSentences t)).2.2 =
        (splitIntoSentences t).length) ∧
    splitIntoSentences (lc "Hi! Are you ok? Yes.") =
      [lc "Hi!", lc "Are you ok?", lc "Yes."] ∧
    (splitIntoSentences (lc "Hi! Are you ok? Yes.")).map classifySentence =
      [.exclamatory, .interrogative, .declarative] :=
  ⟨fun t => sentenceTypes_sum (splitIntoSentences t), by decide, by decide⟩

/-- Claim C5, counterexample: on `"a.b c."` the code's segmentation yields
`["a.b c."]` (a terminator run inside a word is no boundary, and the
terminators are kept), while the claimed reference split-anywhere
definition yields `["a", "b c"]`. -/
theorem claim_C5_counterexample :
    splitIntoSentences (lc "a.b c.") ≠ refSegment (lc "a.b c.") := by decide

/-- Claim C5, amended: segmentation splits only at maximal terminator runs
that are followed by whitespace or by the end of the text, keeps the
terminator run attached to its sentence, trims whitespace and discards
blank spans; a document with no terminator characters (and some
non-whitespace) yields exactly one sentence, the whole trimmed text. -/
theorem claim_C5 :
    (∀ t : List Char, (∀ c ∈ t, isTerm c = false) → stripChars t ≠ [] →
      splitIntoSentences t = [stripChars t]) ∧
    splitIntoSentences (lc "a.b c.") = [lc "a.b c."] ∧
    splitIntoSentences (lc "Hi!! Ok then? done") =
      [lc "Hi!!", lc "Ok then?", lc "done"] := by
  refine ⟨?_, by decide, by decide⟩
  intro t h1 h2
  have := splitAux_no_term t [] h1
  simpa [splitIntoSentences, h2] using this

/-- Claim C5 witness: a concrete terminator-free document. -/
theorem claim_C5_witness :
    (∀ c ∈ lc "abc", isTerm c = false) ∧ stripChars (lc "abc") ≠ [] ∧
      splitIntoSentences (lc "abc") = [stripChars (lc "abc")] :=
  ⟨by decide, by decide, claim_C5.1 (lc "abc") (by decide) (by decide)⟩

/-- Claim C6: for every non-empty document, no sentence produced by the
segmentation is empty or all-whitespace. -/
theorem claim_C6 : ∀ t : List Char, t ≠ [] →
    (splitIntoSentences t).all goodSentence = true := by
  intro t _
  exact splitAux_good t [] []

/-- Claim C6 witness: a concrete document with adjacent terminators. -/
theorem claim_C6_witness :
    lc "Hi.. ! ok" ≠ [] ∧
      (splitIntoSentences (lc "Hi.. ! ok")).all goodSentence = true :=
  ⟨by decide, claim_C6 (lc "Hi.. ! ok") (by decide)⟩

/-- Claim C7: variable substitution rewrites every occurrence of
`$v_(X)$` (X a single alphanumeric) to `v[X]`, leaves non-matching text
verbatim, and does not mutate the analyzer's document:
`"a $v_(3)$ b"` becomes `"a v[3] b"`, `"$v_(xy)$"` is unchanged, a text
without occurrences is returned unchanged, an occurrence at the head is
always rewritten, and the analyzer state is returned untouched. -/
theorem claim_C7 :
    replaceMathVars (lc "a $v_(3)$ b") = lc "a v[3] b" ∧
    replaceMathVars (lc "$v_(xy)$") = lc "$v_(xy)$" ∧
    (∀ t : List Char, containsVarPat t = false → replaceMathVars t = t) ∧
    (∀ x rest, isAlnumCh x = true →
      replaceMathVars (varPat x ++ rest) =
        'v' :: '[' :: x :: ']' :: replaceMathVars rest) ∧
    (∀ a : Analyzer, (replaceMathVarsM a).2 = a) :=
  ⟨by decide, by decide, fun t h => replaceVarsAux_id t.length t h,
    replaceVars_head, fun a => rfl⟩

/-- Claim C7 witness: concrete instantiations of the conditional parts. -/
theorem claim_C7_witness :
    containsVarPat (lc "hello") = false ∧ replaceMathVars (lc "hello") = lc "hello" ∧
      isAlnumCh 'k' = true ∧
      replaceMathVars (varPat 'k' ++ lc "!") =
        'v' :: '[' :: 'k' :: ']' :: replaceMathVars (lc "!") :=
  ⟨by decide, claim_C7.2.2.1 (lc "hello") (by decide), by decide,
    claim_C7.2.2.2.1 'k' (lc "!") (by decide)⟩

/-- Claim C8, counterexample: in the document `"i"` the only word starting
with `i` is the single letter `i`, yet `get_shortest_i_word` returns the
empty string (its pattern `\b[iI]\w+\b` wants a second word character), not
`"i"` as the claim states. -/
theorem claim_C8_counterexample :
    getShortestIWord (lc "i") ≠ lc "i" ∧ getShortestIWord (lc "i") = [] :=
  ⟨by decide, by decide⟩

/-- Claim C8, amended: `shortestIWord` returns the shortest match of
`i`/`I` followed by at least one more word character (so every candidate
has length at least 2 and a single-letter `i` is never returned), ties
broken by first occurrence in scan order, and the empty string when there
is no such word. -/
theorem claim_C8 :
    (∀ t w, w ∈ iWords t →
      2 ≤ w.length ∧ (w.head? = some 'i' ∨ w.head? = some 'I')) ∧
    (∀ t, iWords t = [] → getShortestIWord t = []) ∧
    (∀ t, iWords t ≠ [] →
      ∃ pre post, iWords t = pre ++ (getShortestIWord t) :: post ∧
        ∀ w ∈ pre, (getShortestIWord t).length < w.length) ∧
    (∀ t w, w ∈ iWords t → (getShortestIWord t).length ≤ w.length) ∧
    getShortestIWord (lc "in it") = lc "in" ∧
    getShortestIWord (lc "i") = [] := by
  refine ⟨fun t w hw => iWordsAux_shape _ _ _ _ hw, ?_, ?_, ?_, by decide, by decide⟩
  · intro t h
    simp [getShortestIWord, h, minByLen]
  · intro t h
    cases hc : iWords t with
    | nil => exact absurd hc h
    | cons hd tl =>
      have hg : getShortestIWord t = tl.foldl pickShorter hd := by
        simp [getShortestIWord, hc, minByLen]
      rw [hg]
      exact foldl_pickShorter_first tl hd
  · intro t w hw
    cases hc : iWords t with
    | nil => rw [hc] at hw; simp at hw
    | cons hd tl =>
      have hg : getShortestIWord t = tl.foldl pickShorter hd := by
        simp [getShortestIWord, hc, minByLen]
      rw [hg]
      rw [hc] at hw
      rcases List.mem_cons.mp hw with h1 | h1
      · exact foldl_pickShorter_le tl hd w (Or.inl h1)
      · exact foldl_pickShorter_le tl hd w (Or.inr h1)

/-- Claim C8 witness: concrete instantiation of the conditional parts on a
document with two i-words of equal length. -/
theorem claim_C8_witness :
    iWords (lc "it is") ≠ [] ∧
      ∃ pre post, iWords (lc "it is") = pre ++ (getShortestIWord (lc "it is")) :: post ∧
        ∀ w ∈ pre, (getShortestIWord (lc "it is")).length < w.length :=
  ⟨by decide, claim_C8.2.2.1 (lc "it is") (by decide)⟩

/-- Claim C9: on the document `"Hi. Wow!?"` (a `.`-terminated and a
`!`-terminated fragment) the three per-class `findall` counts of
`BasicTextAnalyzer._classify_sentences` sum to 3 — the `"Wow"` fragment is
counted as both interrogative and exclamatory — while its own
`total_sentences` count is 2, so the regex-based classification is not
equivalent to the per-sentence one. -/
theorem claim_C9 :
    declarativeCount (lc "Hi. Wow!?") + interrogativeCount (lc "Hi. Wow!?") +
        exclamatoryCount (lc "Hi. Wow!?") = 3 ∧
      basicCountSentences (lc "Hi. Wow!?") = 2 :=
  ⟨by decide, by decide⟩

/-- Claim C10: `analyze` is deterministic — on a freshly constructed
analyzer (empty sentence cache) a second call, after the first has filled
the cache, produces the same report, and the document text is never
mutated. -/
theorem claim_C10 : ∀ s : List Char, s ≠ [] →
    (analyzeTA ⟨s, none⟩).1 = (analyzeTA (analyzeTA ⟨s, none⟩).2).1 ∧
    (analyzeTA ⟨s, none⟩).2.text = s ∧
    (analyzeTA (analyzeTA ⟨s, none⟩).2).2.text = s := by
  intro s _
  exact ⟨rfl, rfl, rfl⟩

/-- Claim C10 witness: the two reports on a concrete document. -/
theorem claim_C10_witness :
    lc "Hi. Ok!" ≠ [] ∧
      (analyzeTA ⟨lc "Hi. Ok!", none⟩).1 =
        (analyzeTA (analyzeTA ⟨lc "Hi. Ok!", none⟩).2).1 :=
  ⟨by decide, (claim_C10 (lc "Hi. Ok!") (by decide)).1⟩
